import Mathlib

/-!
Verification of the chat-bot client (src/frontend/hooks/useWebSocket.ts and
src/frontend/app/page.tsx).

The development shallowly embeds the client-side communication layer:

* a model of the JSON values exchanged on the wire and of the JavaScript
  `JSON.stringify` / `JSON.parse` built-ins on the fragment of JSON this
  client produces (null, booleans, strings, objects; the client never sends
  numbers or arrays);
* the WebSocket send gate and the `onopen` auth handshake of
  `useWebSocket.ts`;
* the listener table (`listenersRef`) with its `subscribe` / `unsubscribe` /
  dispatch behaviour;
* the chat-log state machine of `page.tsx` (`messages` state together with
  the event handlers `handleSend`, `handleFileChange`, `handleUrlSend` and
  the `status` / `answer` / `binary` subscriptions).
-/

namespace ChatClient

mutual

/-- JSON values, restricted to the fragment exchanged by this client:
`null`, booleans, strings and objects.  The client never serializes numbers
or arrays (`auth`, `question`, `upload` and `website` payloads are objects of
strings and booleans, inbound payloads are strings), so those constructors
are omitted from the model.  `JsonFields` is the (ordered) field list of an
object. -/
inductive Json : Type where
  | null : Json
  | bool : Bool → Json
  | str : String → Json
  | obj : JsonFields → Json

/-- Field lists of a JSON object, in serialization order. -/
inductive JsonFields : Type where
  | nil : JsonFields
  | cons : String → Json → JsonFields → JsonFields

end

/-- Lower-case hexadecimal digit, as emitted by `JSON.stringify` in `\u00XX`
escapes (only ever used with `n < 16`). -/
def hexDigitChar (n : Nat) : Char :=
  if n < 10 then Char.ofNat (48 + n) else Char.ofNat (87 + n)

/-- Escaping of a single character inside a JSON string literal, exactly as
`JSON.stringify` does it: `"` and `\` are backslash-escaped, the control
characters with short forms use `\n`, `\t`, `\r`, `\b`, `\f`, the remaining
control characters below 0x20 become `\u00XX`, and every other character is
emitted verbatim. -/
def escapeChar (c : Char) : List Char :=
  if c = '"' then ['\\', '"']
  else if c = '\\' then ['\\', '\\']
  else if c = '\n' then ['\\', 'n']
  else if c = '\t' then ['\\', 't']
  else if c = '\r' then ['\\', 'r']
  else if c.toNat = 8 then ['\\', 'b']
  else if c.toNat = 12 then ['\\', 'f']
  else if c.toNat < 32 then
    ['\\', 'u', '0', '0', hexDigitChar (c.toNat / 16), hexDigitChar (c.toNat % 16)]
  else [c]

/-- Serialization of a string literal, `JSON.stringify` style: a double
quote, the escaped characters, a closing double quote. -/
def serString (s : String) : List Char :=
  '"' :: (s.data.flatMap escapeChar ++ ['"'])

mutual

/-- Model of `JSON.stringify` on the JSON fragment of the wire protocol.
Field lists are serialized comma-separated with no whitespace, which is
exactly what `JSON.stringify` emits. -/
def serJson : Json → List Char
  | Json.null => ['n', 'u', 'l', 'l']
  | Json.bool true => ['t', 'r', 'u', 'e']
  | Json.bool false => ['f', 'a', 'l', 's', 'e']
  | Json.str s => serString s
  | Json.obj fs => '\x7b' :: (serFields fs ++ ['\x7d'])

/-- Serialization of the field list of an object (without the surrounding
braces). -/
def serFields : JsonFields → List Char
  | JsonFields.nil => []
  | JsonFields.cons k v JsonFields.nil => serString k ++ (':' :: serJson v)
  | JsonFields.cons k v (JsonFields.cons k2 v2 fs) =>
      serString k ++ (':' :: serJson v) ++ (',' :: serFields (JsonFields.cons k2 v2 fs))

end

mutual

/-- Fuel sufficient for `parseVal` to parse the serialization of a value
(one unit per nesting level). -/
def fuelJ : Json → Nat
  | Json.obj fs => fuelF fs + 1
  | _ => 1

/-- Fuel sufficient for `parseFields` to parse a serialized field list. -/
def fuelF : JsonFields → Nat
  | JsonFields.nil => 1
  | JsonFields.cons _ v fs => fuelJ v + fuelF fs + 1

end

/-- Numeric value of a hexadecimal digit, as accepted inside `\uXXXX`
escapes by `JSON.parse`. -/
def hexVal (c : Char) : Option Nat :=
  if 48 ≤ c.toNat ∧ c.toNat ≤ 57 then some (c.toNat - 48)
  else if 97 ≤ c.toNat ∧ c.toNat ≤ 102 then some (c.toNat - 87)
  else if 65 ≤ c.toNat ∧ c.toNat ≤ 70 then some (c.toNat - 55)
  else none

/-- Single-character escape sequences accepted by `JSON.parse` (`\uXXXX` is
handled separately in `parseStringBody`). -/
def unescapeChar (e : Char) : Option Char :=
  if e = '"' then some '"'
  else if e = '\\' then some '\\'
  else if e = '/' then some '/'
  else if e = 'n' then some '\n'
  else if e = 't' then some '\t'
  else if e = 'r' then some '\r'
  else if e = 'b' then some (Char.ofNat 8)
  else if e = 'f' then some (Char.ofNat 12)
  else none

/-- Parser for one escape sequence (the input starts right after the
backslash); returns the decoded character and the remaining input.  Models
the escape handling of `JSON.parse`. -/
def parseEscape : List Char → Option (Char × List Char)
  | 'u' :: h1 :: h2 :: h3 :: h4 :: rest =>
    match hexVal h1, hexVal h2, hexVal h3, hexVal h4 with
    | some a, some b, some c2, some d2 =>
        some (Char.ofNat (((a * 16 + b) * 16 + c2) * 16 + d2), rest)
    | _, _, _, _ => none
  | e :: rest =>
    match unescapeChar e with
    | some c2 => some (c2, rest)
    | none => none
  | [] => none

/-- Parser for the body of a JSON string literal (the opening quote already
consumed); returns the decoded characters and the input remaining after the
closing quote.  Models the string scanner of `JSON.parse`; the fuel only
bounds the recursion depth and one unit per input character suffices. -/
def parseStringBody : Nat → List Char → Option (List Char × List Char)
  | 0, _ => none
  | _ + 1, [] => none
  | fuel + 1, c :: rest =>
    if c = '"' then some ([], rest)
    else if c = '\\' then
      match parseEscape rest with
      | some (c2, rest2) =>
        match parseStringBody fuel rest2 with
        | some (s, r) => some (c2 :: s, r)
        | none => none
      | none => none
    else
      match parseStringBody fuel rest with
      | some (s, r) => some (c :: s, r)
      | none => none

mutual

/-- Fueled recursive-descent parser for the JSON fragment, modelling
`JSON.parse` on the whitespace-free output of `JSON.stringify`.  Returns the
parsed value and the remaining input. -/
def parseVal : Nat → List Char → Option (Json × List Char)
  | 0, _ => none
  | fuel + 1, l =>
    match l with
    | 'n' :: 'u' :: 'l' :: 'l' :: rest => some (Json.null, rest)
    | 't' :: 'r' :: 'u' :: 'e' :: rest => some (Json.bool true, rest)
    | 'f' :: 'a' :: 'l' :: 's' :: 'e' :: rest => some (Json.bool false, rest)
    | '"' :: rest =>
      match parseStringBody rest.length rest with
      | some (s, r) => some (Json.str (String.mk s), r)
      | none => none
    | '\x7b' :: '\x7d' :: rest => some (Json.obj JsonFields.nil, rest)
    | '\x7b' :: rest =>
      match parseFields fuel rest with
      | some (fs, r) => some (Json.obj fs, r)
      | none => none
    | _ => none

/-- Parser for a non-empty field list, consuming the closing brace of the
object. -/
def parseFields : Nat → List Char → Option (JsonFields × List Char)
  | 0, _ => none
  | fuel + 1, l =>
    match l with
    | '"' :: rest =>
      match parseStringBody rest.length rest with
      | some (k, r1) =>
        match r1 with
        | ':' :: r2 =>
          match parseVal fuel r2 with
          | some (v, r3) =>
            match r3 with
            | ',' :: r4 =>
              match parseFields fuel r4 with
              | some (fs, r5) => some (JsonFields.cons (String.mk k) v fs, r5)
              | none => none
            | '\x7d' :: r4 => some (JsonFields.cons (String.mk k) v JsonFields.nil, r4)
            | _ => none
          | none => none
        | _ => none
      | none => none
    | _ => none

end

/-- Field lookup on a parsed object.  When `JSON.parse` meets duplicate keys
the last occurrence wins, hence the recursion prefers the tail. -/
def getField : JsonFields → String → Option Json
  | JsonFields.nil, _ => none
  | JsonFields.cons k v rest, key =>
    match getField rest key with
    | some r => some r
    | none => if k = key then some v else none

/-- The `\x7b"event":e,"data":d\x7d` envelope built by the send path
(`JSON.stringify(\x7b event, data \x7d)` in `useWebSocket.ts`). -/
def envelopeJson (event : String) (d : Json) : Json :=
  Json.obj (JsonFields.cons "event" (Json.str event) (JsonFields.cons "data" d JsonFields.nil))

/-- Text-frame encoding of an event envelope:
`JSON.stringify(\x7b event, data \x7d)`. -/
def encodeEnvelope (event : String) (d : Json) : String :=
  String.mk (serJson (envelopeJson event d))

/-- Decoding performed by the `onmessage` handler on a text frame:
`JSON.parse`, then the `event` field is used as the listener key and the
`data` field is handed to the handler (a missing `data` field would reach
the handler as `undefined`, modelled as `Json.null`).  A parse failure, a
non-object document, trailing garbage or a non-string `event` field all
leave no handler invocable, modelled as `none`. -/
def decodeText (s : String) : Option (String × Json) :=
  match parseVal (s.data.length + 1) s.data with
  | some (Json.obj fs, []) =>
    match getField fs "event" with
    | some (Json.str e) => some (e, (getField fs "data").getD Json.null)
    | _ => none
  | _ => none

/-! WebSocket connection model (`useWebSocket.ts`). -/

/-- The `readyState` values of a browser WebSocket. -/
inductive ReadyState : Type where
  | connecting : ReadyState
  | opened : ReadyState
  | closing : ReadyState
  | closed : ReadyState
deriving DecidableEq

/-- Payload handed to `send`: either a JSON-serializable value or a raw
binary buffer (the `isArrayBuffer(data) || isBlob(data)` branch). -/
inductive SendPayload : Type where
  | json : Json → SendPayload
  | binary : List Nat → SendPayload

/-- A frame written to the transport: a text frame or a binary frame of raw
bytes. -/
inductive Frame : Type where
  | text : String → Frame
  | bin : List Nat → Frame
deriving DecidableEq

/-- The `send` function of `useWebSocket.ts`: if the socket ref is empty or
`readyState !== WebSocket.OPEN` it returns without doing anything (no
write, no queueing, no exception — the function is total); otherwise a raw
binary payload is written as-is and any other payload is written as the
JSON text frame `JSON.stringify(\x7b event, data \x7d)`.  The result is the
frame written to the transport, `none` when nothing is written. -/
def wsSend (sock : Option ReadyState) (event : String) (data : SendPayload) : Option Frame :=
  match sock with
  | none => none
  | some st =>
    if st = ReadyState.opened then
      match data with
      | SendPayload.binary b => some (Frame.bin b)
      | SendPayload.json d => some (Frame.text (encodeEnvelope event d))
    else none

/-- The `data` object of the auth handshake: `\x7b token: t \x7d`. -/
def authData (t : String) : Json :=
  Json.obj (JsonFields.cons "token" (Json.str t) JsonFields.nil)

/-- Frames written by the `onopen` handler: when a `jwt-token` cookie was
present at connect time it sends exactly
`JSON.stringify(\x7b event: "auth", data: \x7b token \x7d \x7d)`, otherwise
nothing. -/
def onOpenFrames (token : Option String) : List Frame :=
  match token with
  | some t => [Frame.text (encodeEnvelope "auth" (authData t))]
  | none => []

/-- The sequence of frames written after the transport opens.  The browser
event loop runs `onopen` to completion before any user-interaction callback
can call `send`, so the trace is the `onopen` frames followed by the
user-initiated frames. -/
def framesAfterOpen (token : Option String) (userFrames : List Frame) : List Frame :=
  onOpenFrames token ++ userFrames

/-! Listener table model (`listenersRef` in `useWebSocket.ts`).  A
JavaScript object keyed by event name holds at most one handler per key;
this is modelled as a function from names to optional handlers. -/

/-- The listener table: event name to the (at most one) registered
handler. -/
def ListenerMap (α : Type) : Type := String → Option α

/-- The initial, empty listener table (`listenersRef.current = \x7b\x7d`). -/
def emptyListeners {α : Type} : ListenerMap α := fun _ => none

/-- `subscribe(event, callback)`: property assignment on the listener
object, silently overwriting any previous handler for the same name (both
branches of the source function perform the same assignment). -/
def subscribe {α : Type} (event : String) (callback : α) (t : ListenerMap α) : ListenerMap α :=
  fun n => if n = event then some callback else t n

/-- `unsubscribe(event)`: the `delete` of the property. -/
def unsubscribe {α : Type} (event : String) (t : ListenerMap α) : ListenerMap α :=
  fun n => if n = event then none else t n

/-- The handler that a dispatch for `event` invokes: the `onmessage` code
looks up `listenersRef.current[message.event]` and calls it when present
(`if (handler) handler(...)`); `none` means the dispatch is a silent
no-op. -/
def dispatchedHandler {α : Type} (t : ListenerMap α) (event : String) : Option α :=
  t event

/-- One `subscribe`/`unsubscribe` call for a fixed event name. -/
inductive ListenerOp (α : Type) : Type where
  | sub : α → ListenerOp α
  | unsub : ListenerOp α

/-- Apply a sequence of `subscribe`/`unsubscribe` calls for the event name
`event` to a listener table, in order. -/
def applyListenerOps {α : Type} (event : String) (ops : List (ListenerOp α))
    (t : ListenerMap α) : ListenerMap α :=
  ops.foldl
    (fun acc op =>
      match op with
      | ListenerOp.sub h => subscribe event h acc
      | ListenerOp.unsub => unsubscribe event acc)
    t

/-- The handler registered after a sequence of calls: the last subscribed
handler, unless an `unsubscribe` came later (starting from `init`). -/
def lastSubscribed {α : Type} (ops : List (ListenerOp α)) (init : Option α) : Option α :=
  ops.foldl
    (fun _acc op =>
      match op with
      | ListenerOp.sub h => some h
      | ListenerOp.unsub => none)
    init

/-! Chat-log state machine (`page.tsx`). -/

/-- The `type` discriminator of a chat-log entry (the `messages` state of
`Home`). -/
inductive MsgType : Type where
  | status : MsgType
  | error : MsgType
  | answer : MsgType
  | question : MsgType
  | upload : MsgType
  | website : MsgType
  | loading : MsgType
  | audioKind : MsgType
deriving DecidableEq

/-- One entry of the `messages` array: a `type`, the display `text`, and an
optional `audioUrl`.  The object URL returned by `URL.createObjectURL` is
modelled as an opaque `Nat` identifier; an entry created without the
`audioUrl` key is modelled with `none`. -/
structure Msg : Type where
  type : MsgType
  text : String
  audioUrl : Option Nat := none
deriving DecidableEq

/-- The spread update `\x7b ...msg, audioUrl: url \x7d` used by the binary
handler. -/
def setAudio (m : Msg) (url : Nat) : Msg :=
  { m with audioUrl := some url }

/-- The `removeLoading` helper of the subscription effect:
`msgs.filter((msg) => msg.type !== "loading")`. -/
def removeLoading (msgs : List Msg) : List Msg :=
  msgs.filter (fun m => decide (m.type ≠ MsgType.loading))

/-- The `status` subscription handler: appends a `status` entry with the
received text (it does not touch `loading` entries). -/
def statusHandler (d : String) (msgs : List Msg) : List Msg :=
  msgs ++ [{ type := MsgType.status, text := d }]

/-- The `answer` subscription handler: `removeLoading()` then append an
`answer` entry with the received text. -/
def answerHandler (d : String) (msgs : List Msg) : List Msg :=
  removeLoading msgs ++ [{ type := MsgType.answer, text := d }]

/-- Model of `Array.prototype.findIndex`, with the `-1` result modelled as
`none`. -/
def findIdxQ (p : Msg → Bool) : List Msg → Option Nat
  | [] => none
  | m :: rest => if p m then some 0 else (findIdxQ p rest).map (· + 1)

/-- Overwrite the `audioUrl` of the entry at the given position (the
`newMsgs[actualIndex] = \x7b ...newMsgs[actualIndex], audioUrl: url \x7d`
assignment on the copied array). -/
def setAudioAt (url : Nat) : Nat → List Msg → List Msg
  | _, [] => []
  | 0, m :: rest => setAudio m url :: rest
  | n + 1, m :: rest => m :: setAudioAt url n rest

/-- The `binary` subscription handler: reverse the log, `findIndex` the
first `answer` entry of the reversed log (i.e. the last `answer` entry of
the log, regardless of any existing `audioUrl`); when found, set the
`audioUrl` of the entry at `msgs.length - 1 - lastAnswerIndex`, otherwise
return the log unchanged.  `url` is the object URL created for the received
bytes. -/
def binaryHandler (url : Nat) (msgs : List Msg) : List Msg :=
  match findIdxQ (fun m => decide (m.type = MsgType.answer)) msgs.reverse with
  | none => msgs
  | some i => setAudioAt url (msgs.length - 1 - i) msgs

/-- The listener table for JSON events built by the subscription effect of
`Home`: it subscribes handlers for `status` and `answer` (the `binary`
handler lives under the separate `"binary"` key and receives raw bytes, so
it is modelled separately by `binaryHandler`).  No handler is ever
subscribed for `error`, even though the cleanup function unsubscribes that
name. -/
def homeListeners : ListenerMap (String → List Msg → List Msg) :=
  subscribe "answer" answerHandler (subscribe "status" statusHandler emptyListeners)

/-- Dispatch of a decoded inbound envelope against a listener table: invoke
the registered handler on the chat log, or leave the log unchanged when no
handler is registered for the event name. -/
def dispatchEvent (t : ListenerMap (String → List Msg → List Msg))
    (event : String) (payload : String) (msgs : List Msg) : List Msg :=
  match t event with
  | some h => h payload msgs
  | none => msgs

/-- Whitespace as trimmed by JavaScript `String.prototype.trim`: ASCII
whitespace, NBSP, the Unicode space separators, the line separators and the
BOM. -/
def isJsWhitespace (c : Char) : Bool :=
  (9 ≤ c.toNat && c.toNat ≤ 13) || c.toNat = 32 || c.toNat = 160 || c.toNat = 5760 ||
    (8192 ≤ c.toNat && c.toNat ≤ 8202) || c.toNat = 8232 || c.toNat = 8233 ||
    c.toNat = 8239 || c.toNat = 8287 || c.toNat = 12288 || c.toNat = 65279

/-- Model of JavaScript `String.prototype.trim`. -/
def jsTrim (s : String) : String :=
  String.mk (((s.data.dropWhile isJsWhitespace).reverse.dropWhile isJsWhitespace).reverse)

/-- Model of the regular expression test `/\.(txt|pdf|docx)$/i.test(name)`:
the name ends, case-insensitively on ASCII letters, in `.txt`, `.pdf` or
`.docx`. -/
def lowerAscii (c : Char) : Char :=
  if 65 ≤ c.toNat ∧ c.toNat ≤ 90 then Char.ofNat (c.toNat + 32) else c

/-- Suffix test on character lists. -/
def endsWithCL (suffix l : List Char) : Bool :=
  suffix.reverse.isPrefixOf l.reverse

/-- The file-extension allow-list check of `handleFileChange`
(`/\.(txt|pdf|docx)$/i.test(file.name)`). -/
def allowedFile (name : String) : Bool :=
  let l := name.data.map lowerAscii
  endsWithCL ".txt".data l || endsWithCL ".pdf".data l || endsWithCL ".docx".data l

/-- The last comma-separated component of a data URL:
`(reader.result as string).split(",").pop()`, which strips the
`data:...;base64,` prefix. -/
def dataUrlBase64 (s : String) : String :=
  String.mk ((s.data.reverse.takeWhile (fun c => decide (c ≠ ','))).reverse)

/-- One operation of the chat session store: a user action or an inbound
protocol event. -/
inductive Op : Type where
  | userQuestion : String → Bool → Op
  | fileUpload : String → String → Op
  | urlSubmit : String → Op
  | inStatus : String → Op
  | inError : String → Op
  | inAnswer : String → Op
  | inBinary : Nat → Op

/-- Effect of one operation on the chat log, together with the `send` call
it performs (as the `(event, data)` envelope handed to `send`; `none` when
`send` is not called).

* `userQuestion input audioResponse` is `handleSend`: trim the input; an
  empty result returns immediately; otherwise filter out `loading` entries
  and append the `question` and `loading` entries in the same state update,
  then `send("question", \x7b text, audio \x7d)`.
* `fileUpload filename dataUrl` is `handleFileChange`: the extension
  allow-list is checked before any network interaction; on mismatch a local
  `error` entry is appended and nothing is sent; on match the reader's
  `onload` appends the `upload` entry and sends
  `send("upload", \x7b file: base64, filename \x7d)`.
* `urlSubmit` is `handleUrlSend`: trim; empty returns immediately;
  otherwise append a `website` entry and `send("website", \x7b url \x7d)`.
* `inStatus` / `inError` / `inAnswer` dispatch the decoded envelope through
  the listener table built by `Home` (the inbound payloads are strings).
* `inBinary` runs the `binary` handler with the freshly created object
  URL. -/
def step (op : Op) (msgs : List Msg) : List Msg × Option (String × Json) :=
  match op with
  | Op.userQuestion input audioResponse =>
    let trimmed := jsTrim input
    if trimmed = "" then (msgs, none)
    else
      (removeLoading msgs ++
        [{ type := MsgType.question, text := trimmed },
         { type := MsgType.loading, text := "Thinking..." }],
       some ("question",
         Json.obj (JsonFields.cons "text" (Json.str trimmed)
           (JsonFields.cons "audio" (Json.bool audioResponse) JsonFields.nil))))
  | Op.fileUpload filename dataUrl =>
    if allowedFile filename then
      (msgs ++ [{ type := MsgType.upload, text := "Uploading " ++ filename ++ "..." }],
       some ("upload",
         Json.obj (JsonFields.cons "file" (Json.str (dataUrlBase64 dataUrl))
           (JsonFields.cons "filename" (Json.str filename) JsonFields.nil))))
    else
      (msgs ++ [{ type := MsgType.error,
                  text := "Only .txt, .pdf, and .docx files are supported." }],
       none)
  | Op.urlSubmit urlInput =>
    let url := jsTrim urlInput
    if url = "" then (msgs, none)
    else
      (msgs ++ [{ type := MsgType.website, text := "Indexing website: " ++ url }],
       some ("website", Json.obj (JsonFields.cons "url" (Json.str url) JsonFields.nil)))
  | Op.inStatus d => (dispatchEvent homeListeners "status" d msgs, none)
  | Op.inError d => (dispatchEvent homeListeners "error" d msgs, none)
  | Op.inAnswer d => (dispatchEvent homeListeners "answer" d msgs, none)
  | Op.inBinary url => (binaryHandler url msgs, none)

/-- The chat log reached from the initial empty log by a sequence of
operations. -/
def reachLog (ops : List Op) : List Msg :=
  ops.foldl (fun msgs op => (step op msgs).1) []

/-- Number of `loading` entries in a log. -/
def countLoading (msgs : List Msg) : Nat :=
  msgs.countP (fun m => decide (m.type = MsgType.loading))

/-- Relation between a log and its successor allowed by the (amended)
append-only discipline: entries are only ever appended, except that
`loading` entries may be filtered out in the same update, and except the
one permitted in-place mutation — setting (possibly overwriting) the
`audioUrl` of an `answer` entry. -/
def appendOnlyStep (old new : List Msg) : Prop :=
  (∃ app, new = old ++ app) ∨
  (∃ app, new = removeLoading old ++ app) ∨
  (∃ pre a post url, old = pre ++ a :: post ∧ a.type = MsgType.answer ∧
    new = pre ++ setAudio a url :: post)

/-! Helper lemmas about the JSON codec: `decode` inverts `encode`. -/

theorem string_mk_data : ∀ (s : String), String.mk s.data = s
  | String.mk _ => rfl

theorem hexVal_hexDigitChar : ∀ n, n < 16 → hexVal (hexDigitChar n) = some n := by decide

theorem escapeChar_length_pos (c : Char) : 1 ≤ (escapeChar c).length := by
  unfold escapeChar
  repeat' split
  all_goals simp

theorem flatMap_escape_length : ∀ (s : List Char),
    s.length ≤ (s.flatMap escapeChar).length
  | [] => Nat.le_refl 0
  | c :: s => by
    have h1 := escapeChar_length_pos c
    have h2 := flatMap_escape_length s
    simp only [List.flatMap_cons, List.length_cons, List.length_append]
    omega

theorem parseEscape_u (d1 d2 : Char) (a b : Nat) (T : List Char)
    (h1 : hexVal d1 = some a) (h2 : hexVal d2 = some b) :
    parseEscape ('u' :: '0' :: '0' :: d1 :: d2 :: T) =
      some (Char.ofNat (((0 * 16 + 0) * 16 + a) * 16 + b), T) := by
  calc parseEscape ('u' :: '0' :: '0' :: d1 :: d2 :: T)
      = (match hexVal '0', hexVal '0', hexVal d1, hexVal d2 with
         | some a2, some b2, some c2, some e2 =>
             some (Char.ofNat (((a2 * 16 + b2) * 16 + c2) * 16 + e2), T)
         | _, _, _, _ => none) := rfl
    _ = some (Char.ofNat (((0 * 16 + 0) * 16 + a) * 16 + b), T) := by rw [h1, h2]; rfl

theorem parseStringBody_step (c : Char) (f : Nat) (T : List Char) :
    parseStringBody (f + 1) (escapeChar c ++ T) =
      (match parseStringBody f T with
       | some (s, r) => some (c :: s, r)
       | none => none) := by
  by_cases hq : c = '"'
  · subst hq; rfl
  by_cases hbs : c = '\\'
  · subst hbs; rfl
  by_cases hn : c = '\n'
  · subst hn; rfl
  by_cases htb : c = '\t'
  · subst htb; rfl
  by_cases hr : c = '\r'
  · subst hr; rfl
  by_cases h8 : c.toNat = 8
  · have hc : Char.ofNat 8 = c := by rw [← h8]; exact Char.ofNat_toNat c
    have he : escapeChar c = ['\\', 'b'] := by
      unfold escapeChar
      rw [if_neg hq, if_neg hbs, if_neg hn, if_neg htb, if_neg hr, if_pos h8]
    rw [he]
    calc parseStringBody (f + 1) (['\\', 'b'] ++ T)
        = (match parseStringBody f T with
           | some (s, r) => some (Char.ofNat 8 :: s, r)
           | none => none) := rfl
      _ = _ := by simp only [hc]
  by_cases h12 : c.toNat = 12
  · have hc : Char.ofNat 12 = c := by rw [← h12]; exact Char.ofNat_toNat c
    have he : escapeChar c = ['\\', 'f'] := by
      unfold escapeChar
      rw [if_neg hq, if_neg hbs, if_neg hn, if_neg htb, if_neg hr, if_neg h8, if_pos h12]
    rw [he]
    calc parseStringBody (f + 1) (['\\', 'f'] ++ T)
        = (match parseStringBody f T with
           | some (s, r) => some (Char.ofNat 12 :: s, r)
           | none => none) := rfl
      _ = _ := by simp only [hc]
  by_cases h32 : c.toNat < 32
  · have he : escapeChar c =
        ['\\', 'u', '0', '0', hexDigitChar (c.toNat / 16), hexDigitChar (c.toNat % 16)] := by
      unfold escapeChar
      rw [if_neg hq, if_neg hbs, if_neg hn, if_neg htb, if_neg hr, if_neg h8, if_neg h12,
        if_pos h32]
    have ha : hexVal (hexDigitChar (c.toNat / 16)) = some (c.toNat / 16) :=
      hexVal_hexDigitChar _ (by omega)
    have hb : hexVal (hexDigitChar (c.toNat % 16)) = some (c.toNat % 16) :=
      hexVal_hexDigitChar _ (by omega)
    have hN : ((0 * 16 + 0) * 16 + c.toNat / 16) * 16 + c.toNat % 16 = c.toNat := by omega
    rw [he]
    calc parseStringBody (f + 1)
          (['\\', 'u', '0', '0', hexDigitChar (c.toNat / 16), hexDigitChar (c.toNat % 16)] ++ T)
        = (match parseEscape
              ('u' :: '0' :: '0' :: hexDigitChar (c.toNat / 16) ::
                hexDigitChar (c.toNat % 16) :: T) with
           | some (c2, rest2) =>
             (match parseStringBody f rest2 with
              | some (s, r) => some (c2 :: s, r)
              | none => none)
           | none => none) := rfl
      _ = (match parseStringBody f T with
           | some (s, r) =>
               some (Char.ofNat (((0 * 16 + 0) * 16 + c.toNat / 16) * 16 + c.toNat % 16) :: s, r)
           | none => none) := by rw [parseEscape_u _ _ _ _ T ha hb]
      _ = _ := by simp only [hN, Char.ofNat_toNat]
  · have he : escapeChar c = [c] := by
      unfold escapeChar
      rw [if_neg hq, if_neg hbs, if_neg hn, if_neg htb, if_neg hr, if_neg h8, if_neg h12,
        if_neg h32]
    rw [he]
    simp only [List.cons_append, List.nil_append, parseStringBody]
    rw [if_neg hq, if_neg hbs]
    rfl

theorem parseStringBody_round : ∀ (s : List Char) (fuel : Nat) (l : List Char),
    s.length < fuel →
    parseStringBody fuel (s.flatMap escapeChar ++ ('"' :: l)) = some (s, l)
  | [], fuel, l, h => by
    cases fuel with
    | zero => omega
    | succ f => rfl
  | c :: s, fuel, l, h => by
    cases fuel with
    | zero => omega
    | succ f =>
      have hlen : s.length < f := by
        simp only [List.length_cons] at h
        omega
      have ih := parseStringBody_round s f l hlen
      simp only [List.flatMap_cons, List.append_assoc]
      rw [parseStringBody_step c f (s.flatMap escapeChar ++ ('"' :: l)), ih]

theorem parseStringBody_call (s : List Char) (l : List Char) :
    parseStringBody (s.flatMap escapeChar ++ ('"' :: l)).length
      (s.flatMap escapeChar ++ ('"' :: l)) = some (s, l) := by
  apply parseStringBody_round
  have := flatMap_escape_length s
  simp only [List.length_append, List.length_cons]
  omega

mutual

theorem parseVal_round : ∀ (j : Json) (fuel : Nat) (rest : List Char), fuelJ j ≤ fuel →
    parseVal fuel (serJson j ++ rest) = some (j, rest)
  | Json.null, fuel, rest, h => by
    cases fuel with
    | zero => exact absurd h (by simp [fuelJ])
    | succ f => exact rfl
  | Json.bool true, fuel, rest, h => by
    cases fuel with
    | zero => exact absurd h (by simp [fuelJ])
    | succ f => exact rfl
  | Json.bool false, fuel, rest, h => by
    cases fuel with
    | zero => exact absurd h (by simp [fuelJ])
    | succ f => exact rfl
  | Json.str s, fuel, rest, h => by
    cases fuel with
    | zero => exact absurd h (by simp [fuelJ])
    | succ f =>
      have hx : serJson (Json.str s) ++ rest =
          '"' :: (s.data.flatMap escapeChar ++ ('"' :: rest)) := by
        simp [serJson, serString]
      rw [hx]
      calc parseVal (f + 1) ('"' :: (s.data.flatMap escapeChar ++ ('"' :: rest)))
          = (match parseStringBody (s.data.flatMap escapeChar ++ ('"' :: rest)).length
                (s.data.flatMap escapeChar ++ ('"' :: rest)) with
             | some (s2, r) => some (Json.str (String.mk s2), r)
             | none => none) := rfl
        _ = some (Json.str (String.mk s.data), rest) := by
            rw [parseStringBody_call s.data rest]
        _ = some (Json.str s, rest) := by rw [string_mk_data]
  | Json.obj JsonFields.nil, fuel, rest, h => by
    cases fuel with
    | zero => exact absurd h (by simp [fuelJ, fuelF])
    | succ f => exact rfl
  | Json.obj (JsonFields.cons k v fs), fuel, rest, h => by
    cases fuel with
    | zero => exact absurd h (by simp [fuelJ])
    | succ f =>
      have hfuel : fuelF (JsonFields.cons k v fs) ≤ f := by
        simp only [fuelJ] at h
        omega
      obtain ⟨t, ht⟩ : ∃ t, serFields (JsonFields.cons k v fs) = '"' :: t := by
        cases fs with
        | nil =>
          exact ⟨k.data.flatMap escapeChar ++ ('"' :: (':' :: serJson v)),
            by simp [serFields, serString]⟩
        | cons k2 v2 fs2 =>
          exact ⟨k.data.flatMap escapeChar ++
              ('"' :: (':' :: (serJson v ++
                (',' :: serFields (JsonFields.cons k2 v2 fs2))))),
            by simp [serFields, serString]⟩
      have hser : serJson (Json.obj (JsonFields.cons k v fs)) ++ rest =
          '\x7b' :: '"' :: (t ++ ('\x7d' :: rest)) := by
        simp [serJson, ht]
      rw [hser]
      calc parseVal (f + 1) ('\x7b' :: '"' :: (t ++ ('\x7d' :: rest)))
          = (match parseFields f ('"' :: (t ++ ('\x7d' :: rest))) with
             | some (fs2, r) => some (Json.obj fs2, r)
             | none => none) := rfl
        _ = some (Json.obj (JsonFields.cons k v fs), rest) := by
            rw [show ('"' : Char) :: (t ++ ('\x7d' :: rest)) =
                  serFields (JsonFields.cons k v fs) ++ ('\x7d' :: rest) from by
                rw [ht]; rfl]
            rw [parseFields_round k v fs f rest hfuel]

theorem parseFields_round : ∀ (k : String) (v : Json) (fs : JsonFields) (fuel : Nat)
    (rest : List Char), fuelF (JsonFields.cons k v fs) ≤ fuel →
    parseFields fuel (serFields (JsonFields.cons k v fs) ++ ('\x7d' :: rest)) =
      some (JsonFields.cons k v fs, rest)
  | k, v, JsonFields.nil, fuel, rest, h => by
    cases fuel with
    | zero => exact absurd h (by simp [fuelF])
    | succ f =>
      have hv : fuelJ v ≤ f := by
        simp only [fuelF] at h
        omega
      have hser : serFields (JsonFields.cons k v JsonFields.nil) ++ ('\x7d' :: rest) =
          '"' :: (k.data.flatMap escapeChar ++
            ('"' :: (':' :: (serJson v ++ ('\x7d' :: rest))))) := by
        simp [serFields, serString]
      rw [hser]
      calc parseFields (f + 1)
            ('"' :: (k.data.flatMap escapeChar ++
              ('"' :: (':' :: (serJson v ++ ('\x7d' :: rest))))))
          = (match parseStringBody
                (k.data.flatMap escapeChar ++
                  ('"' :: (':' :: (serJson v ++ ('\x7d' :: rest))))).length
                (k.data.flatMap escapeChar ++
                  ('"' :: (':' :: (serJson v ++ ('\x7d' :: rest))))) with
             | some (k2, r1) =>
               (match r1 with
                | ':' :: r2 =>
                  (match parseVal f r2 with
                   | some (v2, r3) =>
                     (match r3 with
                      | ',' :: r4 =>
                        (match parseFields f r4 with
                         | some (fs2, r5) =>
                             some (JsonFields.cons (String.mk k2) v2 fs2, r5)
                         | none => none)
                      | '\x7d' :: r4 => some (JsonFields.cons (String.mk k2) v2 JsonFields.nil, r4)
                      | _ => none)
                   | none => none)
                | _ => none)
             | none => none) := rfl
        _ = (match parseVal f (serJson v ++ ('\x7d' :: rest)) with
             | some (v2, r3) =>
               (match r3 with
                | ',' :: r4 =>
                  (match parseFields f r4 with
                   | some (fs2, r5) => some (JsonFields.cons (String.mk k.data) v2 fs2, r5)
                   | none => none)
                | '\x7d' :: r4 => some (JsonFields.cons (String.mk k.data) v2 JsonFields.nil, r4)
                | _ => none)
             | none => none) := by
            rw [parseStringBody_call k.data (':' :: (serJson v ++ ('\x7d' :: rest)))]
            rfl
        _ = some (JsonFields.cons (String.mk k.data) v JsonFields.nil, rest) := by
            rw [parseVal_round v f ('\x7d' :: rest) hv]
            rfl
        _ = some (JsonFields.cons k v JsonFields.nil, rest) := by
            rw [string_mk_data]
  | k, v, JsonFields.cons k2 v2 fs2, fuel, rest, h => by
    cases fuel with
    | zero => exact absurd h (by simp [fuelF])
    | succ f =>
      have hv : fuelJ v ≤ f := by
        simp only [fuelF] at h
        omega
      have hfs : fuelF (JsonFields.cons k2 v2 fs2) ≤ f := by
        simp only [fuelF] at h ⊢
        omega
      have hser : serFields (JsonFields.cons k v (JsonFields.cons k2 v2 fs2)) ++
            ('\x7d' :: rest) =
          '"' :: (k.data.flatMap escapeChar ++
            ('"' :: (':' :: (serJson v ++
              (',' :: (serFields (JsonFields.cons k2 v2 fs2) ++ ('\x7d' :: rest))))))) := by
        simp [serFields, serString]
      rw [hser]
      calc parseFields (f + 1)
            ('"' :: (k.data.flatMap escapeChar ++
              ('"' :: (':' :: (serJson v ++
                (',' :: (serFields (JsonFields.cons k2 v2 fs2) ++ ('\x7d' :: rest))))))))
          = (match parseStringBody
                (k.data.flatMap escapeChar ++
                  ('"' :: (':' :: (serJson v ++
                    (',' :: (serFields (JsonFields.cons k2 v2 fs2) ++
                      ('\x7d' :: rest))))))).length
                (k.data.flatMap escapeChar ++
                  ('"' :: (':' :: (serJson v ++
                    (',' :: (serFields (JsonFields.cons k2 v2 fs2) ++
                      ('\x7d' :: rest))))))) with
             | some (k3, r1) =>
               (match r1 with
                | ':' :: r2 =>
                  (match parseVal f r2 with
                   | some (v3, r3) =>
                     (match r3 with
                      | ',' :: r4 =>
                        (match parseFields f r4 with
                         | some (fs3, r5) =>
                             some (JsonFields.cons (String.mk k3) v3 fs3, r5)
                         | none => none)
                      | '\x7d' :: r4 => some (JsonFields.cons (String.mk k3) v3 JsonFields.nil, r4)
                      | _ => none)
                   | none => none)
                | _ => none)
             | none => none) := rfl
        _ = (match parseVal f (serJson v ++
              (',' :: (serFields (JsonFields.cons k2 v2 fs2) ++ ('\x7d' :: rest)))) with
             | some (v3, r3) =>
               (match r3 with
                | ',' :: r4 =>
                  (match parseFields f r4 with
                   | some (fs3, r5) => some (JsonFields.cons (String.mk k.data) v3 fs3, r5)
                   | none => none)
                | '\x7d' :: r4 => some (JsonFields.cons (String.mk k.data) v3 JsonFields.nil, r4)
                | _ => none)
             | none => none) := by
            rw [parseStringBody_call k.data
              (':' :: (serJson v ++
                (',' :: (serFields (JsonFields.cons k2 v2 fs2) ++ ('\x7d' :: rest)))))]
            rfl
        _ = (match parseFields f (serFields (JsonFields.cons k2 v2 fs2) ++ ('\x7d' :: rest)) with
             | some (fs3, r5) => some (JsonFields.cons (String.mk k.data) v fs3, r5)
             | none => none) := by
            rw [parseVal_round v f
              (',' :: (serFields (JsonFields.cons k2 v2 fs2) ++ ('\x7d' :: rest))) hv]
            rfl
        _ = some (JsonFields.cons (String.mk k.data) v (JsonFields.cons k2 v2 fs2), rest) := by
            rw [parseFields_round k2 v2 fs2 f rest hfs]
        _ = some (JsonFields.cons k v (JsonFields.cons k2 v2 fs2), rest) := by
            rw [string_mk_data]

end

mutual

theorem fuelJ_le_length : ∀ (j : Json), fuelJ j ≤ (serJson j).length + 1
  | Json.null => by simp [fuelJ, serJson]
  | Json.bool b => by cases b <;> simp [fuelJ, serJson]
  | Json.str s => by simp [fuelJ, serJson, serString]
  | Json.obj JsonFields.nil => by simp [fuelJ, fuelF, serJson, serFields]
  | Json.obj (JsonFields.cons k v fs) => by
    have h1 := fuelF_le_length k v fs
    simp only [fuelJ, serJson, List.length_cons, List.length_append,
      List.length_singleton] at h1 ⊢
    omega
termination_by j => sizeOf j

theorem fuelF_le_length : ∀ (k : String) (v : Json) (fs : JsonFields),
    fuelF (JsonFields.cons k v fs) ≤ (serFields (JsonFields.cons k v fs)).length + 1
  | k, v, JsonFields.nil => by
    have h1 := fuelJ_le_length v
    have h2 : 2 ≤ (serString k).length := by
      simp [serString]
    simp only [fuelF, fuelJ, serFields, List.length_append, List.length_cons] at *
    omega
  | k, v, JsonFields.cons k2 v2 fs2 => by
    have h1 := fuelJ_le_length v
    have h2 : 2 ≤ (serString k).length := by
      simp [serString]
    have h3 := fuelF_le_length k2 v2 fs2
    simp only [fuelF, fuelJ, serFields, List.length_append, List.length_cons] at *
    omega
termination_by _ v fs => sizeOf v + sizeOf fs + 1

end

theorem decodeText_encodeEnvelope (e : String) (d : Json) :
    decodeText (encodeEnvelope e d) = some (e, d) := by
  have hde : ("data" : String) ≠ "event" := by decide
  have hparse : parseVal ((encodeEnvelope e d).data.length + 1) (encodeEnvelope e d).data =
      some (envelopeJson e d, []) := by
    have hdata : (encodeEnvelope e d).data = serJson (envelopeJson e d) := rfl
    rw [hdata]
    have h := parseVal_round (envelopeJson e d) ((serJson (envelopeJson e d)).length + 1) []
      (fuelJ_le_length (envelopeJson e d))
    rwa [List.append_nil] at h
  rw [decodeText, hparse]
  simp only [envelopeJson]
  simp [getField, hde]

/-- C5.  With a token present at connect time, the first frame written after
the transport opens is exactly the JSON text frame
`JSON.stringify(\x7b event: "auth", data: \x7b token \x7d \x7d)`, sent
before any user-initiated traffic, and decoding it recovers the `auth`
envelope; without a token, no auth frame is sent.  The final conjunct pins
the exact serialized bytes for the token `"tok"`. -/
theorem auth_first_frame (t : String) (user : List Frame) :
    (framesAfterOpen (some t) user).head? =
      some (Frame.text (encodeEnvelope "auth" (authData t))) ∧
    decodeText (encodeEnvelope "auth" (authData t)) = some ("auth", authData t) ∧
    framesAfterOpen none user = user ∧
    (encodeEnvelope "auth" (authData "tok")).data =
      '\x7b' :: '"' :: 'e' :: 'v' :: 'e' :: 'n' :: 't' :: '"' :: ':' ::
        '"' :: 'a' :: 'u' :: 't' :: 'h' :: '"' :: ',' ::
        '"' :: 'd' :: 'a' :: 't' :: 'a' :: '"' :: ':' ::
        '\x7b' :: '"' :: 't' :: 'o' :: 'k' :: 'e' :: 'n' :: '"' :: ':' ::
        '"' :: 't' :: 'o' :: 'k' :: '"' :: '\x7d' :: '\x7d' :: [] :=
  ⟨by simp [framesAfterOpen, onOpenFrames],
   decodeText_encodeEnvelope "auth" (authData t),
   by simp [framesAfterOpen, onOpenFrames],
   by decide⟩

/-- C7.  Decoding the encoded frame reproduces the envelope: the send path
serializes `\x7b event, data \x7d` with `JSON.stringify` and the dispatch
path's `JSON.parse` recovers the same event name and payload; a raw binary
payload is written as-is, byte-identical, with no JSON wrapping. -/
theorem codec_roundtrip (e : String) (d : Json) (b : List Nat) :
    decodeText (encodeEnvelope e d) = some (e, d) ∧
    wsSend (some ReadyState.opened) e (SendPayload.binary b) = some (Frame.bin b) :=
  ⟨decodeText_encodeEnvelope e d, rfl⟩

/-! Helper lemmas about the chat-log operations. -/

theorem dispatch_status (d : String) (msgs : List Msg) :
    dispatchEvent homeListeners "status" d msgs =
      msgs ++ [{ type := MsgType.status, text := d }] := by
  have h : ("status" : String) ≠ "answer" := by decide
  simp [dispatchEvent, homeListeners, subscribe, emptyListeners, statusHandler, h]

theorem dispatch_answer (d : String) (msgs : List Msg) :
    dispatchEvent homeListeners "answer" d msgs =
      removeLoading msgs ++ [{ type := MsgType.answer, text := d }] := by
  simp [dispatchEvent, homeListeners, subscribe, emptyListeners, answerHandler]

theorem dispatch_error (d : String) (msgs : List Msg) :
    dispatchEvent homeListeners "error" d msgs = msgs := by
  have h1 : ("error" : String) ≠ "answer" := by decide
  have h2 : ("error" : String) ≠ "status" := by decide
  simp [dispatchEvent, homeListeners, subscribe, emptyListeners, h1, h2]

theorem findIdxQ_eq_none {p : Msg → Bool} : ∀ {l : List Msg},
    (∀ x ∈ l, p x = false) → findIdxQ p l = none
  | [], _ => rfl
  | m :: rest, h => by
    have hm : p m = false := h m (List.mem_cons_self m rest)
    have hrest := findIdxQ_eq_none (fun x hx => h x (List.mem_cons_of_mem m hx))
    simp [findIdxQ, hm, hrest]

theorem findIdxQ_append_none {p : Msg → Bool} : ∀ {l1 : List Msg},
    (∀ x ∈ l1, p x = false) → ∀ (l2 : List Msg),
    findIdxQ p (l1 ++ l2) = (findIdxQ p l2).map (fun i => l1.length + i)
  | [], _, l2 => by simp
  | m :: l1, h, l2 => by
    have hm : p m = false := h m (List.mem_cons_self m l1)
    have ih := findIdxQ_append_none (fun x hx => h x (List.mem_cons_of_mem m hx)) l2
    cases h2 : findIdxQ p l2 with
    | none => simp [findIdxQ, hm, ih, h2]
    | some j =>
      simp [findIdxQ, hm, ih, h2]
      omega

theorem findIdxQ_some_decomp {p : Msg → Bool} : ∀ {l : List Msg} {i : Nat},
    findIdxQ p l = some i →
    ∃ l1 x l2, l = l1 ++ x :: l2 ∧ l1.length = i ∧ p x = true
  | [], i, h => by simp [findIdxQ] at h
  | m :: rest, i, h => by
    by_cases hm : p m = true
    · refine ⟨[], m, rest, by simp, ?_, hm⟩
      simp [findIdxQ, hm] at h
      simp only [List.length_nil]
      omega
    · have hm' : p m = false := by simpa using hm
      simp only [findIdxQ, hm', Bool.false_eq_true, if_false] at h
      obtain ⟨j, hj, hij⟩ := Option.map_eq_some'.mp h
      obtain ⟨l1, x, l2, hl, hlen, hx⟩ := findIdxQ_some_decomp hj
      exact ⟨m :: l1, x, l2, by simp [hl], by simp [hlen, hij], hx⟩

theorem setAudioAt_append (url : Nat) : ∀ (pre : List Msg) (a : Msg) (post : List Msg),
    setAudioAt url pre.length (pre ++ a :: post) = pre ++ setAudio a url :: post
  | [], a, post => rfl
  | m :: pre, a, post => by
    simp only [List.length_cons, List.cons_append, setAudioAt]
    exact congrArg (fun l => m :: l) (setAudioAt_append url pre a post)

theorem binaryHandler_no_answer (url : Nat) {msgs : List Msg}
    (h : ∀ m ∈ msgs, m.type ≠ MsgType.answer) : binaryHandler url msgs = msgs := by
  have hnone : findIdxQ (fun m => decide (m.type = MsgType.answer)) msgs.reverse = none := by
    refine findIdxQ_eq_none (fun x hx => ?_)
    simpa using h x (List.mem_reverse.mp hx)
  simp [binaryHandler, hnone]

theorem binaryHandler_attach_last (url : Nat) (pre : List Msg) (a : Msg) (post : List Msg)
    (ha : a.type = MsgType.answer) (hpost : ∀ m ∈ post, m.type ≠ MsgType.answer) :
    binaryHandler url (pre ++ a :: post) = pre ++ setAudio a url :: post := by
  have hrev : (pre ++ a :: post).reverse = post.reverse ++ a :: pre.reverse := by
    simp
  have hfail : ∀ x ∈ post.reverse, (fun m => decide (m.type = MsgType.answer)) x = false := by
    intro x hx
    simpa using hpost x (List.mem_reverse.mp hx)
  have hfind : findIdxQ (fun m => decide (m.type = MsgType.answer)) ((pre ++ a :: post).reverse) =
      some post.length := by
    rw [hrev, findIdxQ_append_none hfail]
    simp [findIdxQ, ha]
  have hidx : (pre ++ a :: post).length - 1 - post.length = pre.length := by
    simp only [List.length_append, List.length_cons]
    omega
  rw [binaryHandler, hfind]
  simp only [hidx]
  exact setAudioAt_append url pre a post

theorem binaryHandler_appendOnly (url : Nat) (msgs : List Msg) :
    appendOnlyStep msgs (binaryHandler url msgs) := by
  rcases hfind : findIdxQ (fun m => decide (m.type = MsgType.answer)) msgs.reverse with _ | i
  · left
    exact ⟨[], by simp [binaryHandler, hfind]⟩
  · obtain ⟨l1, x, l2, hl, hlen, hx⟩ := findIdxQ_some_decomp hfind
    have hmsgs : msgs = l2.reverse ++ x :: l1.reverse := by
      have := congrArg List.reverse hl
      simpa using this
    have hxa : x.type = MsgType.answer := by simpa using hx
    right; right
    refine ⟨l2.reverse, x, l1.reverse, url, hmsgs, hxa, ?_⟩
    have hidx : msgs.length - 1 - i = l2.reverse.length := by
      have hlength : msgs.length = l1.length + l2.length + 1 := by
        have := congrArg List.length hmsgs
        simp at this
        omega
      simp only [List.length_reverse]
      omega
    calc binaryHandler url msgs = setAudioAt url (msgs.length - 1 - i) msgs := by
            rw [binaryHandler, hfind]
      _ = setAudioAt url l2.reverse.length (l2.reverse ++ x :: l1.reverse) := by
            rw [hidx, hmsgs]
      _ = l2.reverse ++ setAudio x url :: l1.reverse := setAudioAt_append url _ x _

theorem applyListenerOps_lookup {α : Type} : ∀ (ops : List (ListenerOp α)) (e : String)
    (t : ListenerMap α), applyListenerOps e ops t e = lastSubscribed ops (t e)
  | [], _, _ => rfl
  | op :: ops, e, t => by
    cases op with
    | sub h =>
      have ih := applyListenerOps_lookup ops e (subscribe e h t)
      simp only [applyListenerOps, lastSubscribed, List.foldl_cons] at ih ⊢
      rw [ih]
      simp [subscribe]
    | unsub =>
      have ih := applyListenerOps_lookup ops e (unsubscribe e t)
      simp only [applyListenerOps, lastSubscribed, List.foldl_cons] at ih ⊢
      rw [ih]
      simp [unsubscribe]

theorem countLoading_append (l1 l2 : List Msg) :
    countLoading (l1 ++ l2) = countLoading l1 + countLoading l2 :=
  List.countP_append _ _ _

theorem countLoading_removeLoading (msgs : List Msg) :
    countLoading (removeLoading msgs) = 0 := by
  rw [countLoading, removeLoading, List.countP_eq_zero]
  intro a ha
  have := List.of_mem_filter ha
  simpa using this

theorem countLoading_setAudioAt (url : Nat) : ∀ (i : Nat) (msgs : List Msg),
    countLoading (setAudioAt url i msgs) = countLoading msgs
  | i, [] => by cases i <;> rfl
  | 0, m :: rest => by simp [setAudioAt, countLoading, List.countP_cons, setAudio]
  | n + 1, m :: rest => by
    simp only [setAudioAt, countLoading, List.countP_cons]
    have := countLoading_setAudioAt url n rest
    simp only [countLoading] at this
    omega

theorem countLoading_step (op : Op) (msgs : List Msg) (h : countLoading msgs ≤ 1) :
    countLoading (step op msgs).1 ≤ 1 := by
  cases op with
  | userQuestion input flag =>
    by_cases ht : jsTrim input = ""
    · simpa [step, ht] using h
    · have hstep : (step (Op.userQuestion input flag) msgs).1 =
          removeLoading msgs ++
            [{ type := MsgType.question, text := jsTrim input },
             { type := MsgType.loading, text := "Thinking..." }] := by
        simp [step, ht]
      rw [hstep, countLoading_append, countLoading_removeLoading,
        show countLoading
          [{ type := MsgType.question, text := jsTrim input },
           { type := MsgType.loading, text := "Thinking..." }] = 1 from rfl]
  | fileUpload filename dataUrl =>
    by_cases hf : allowedFile filename = true
    · have hstep : (step (Op.fileUpload filename dataUrl) msgs).1 =
          msgs ++ [{ type := MsgType.upload, text := "Uploading " ++ filename ++ "..." }] := by
        simp [step, hf]
      rw [hstep, countLoading_append,
        show countLoading
          [{ type := MsgType.upload, text := "Uploading " ++ filename ++ "..." }] = 0 from rfl]
      omega
    · have hstep : (step (Op.fileUpload filename dataUrl) msgs).1 =
          msgs ++ [{ type := MsgType.error,
                     text := "Only .txt, .pdf, and .docx files are supported." }] := by
        simp [step, hf]
      rw [hstep, countLoading_append,
        show countLoading
          [{ type := MsgType.error,
             text := "Only .txt, .pdf, and .docx files are supported." }] = 0 from rfl]
      omega
  | urlSubmit u =>
    by_cases ht : jsTrim u = ""
    · simpa [step, ht] using h
    · have hstep : (step (Op.urlSubmit u) msgs).1 =
          msgs ++ [{ type := MsgType.website, text := "Indexing website: " ++ jsTrim u }] := by
        simp [step, ht]
      rw [hstep, countLoading_append,
        show countLoading
          [{ type := MsgType.website, text := "Indexing website: " ++ jsTrim u }] = 0 from rfl]
      omega
  | inStatus d =>
    have hstep : (step (Op.inStatus d) msgs).1 =
        msgs ++ [{ type := MsgType.status, text := d }] := by
      simp [step, dispatch_status]
    rw [hstep, countLoading_append,
      show countLoading [{ type := MsgType.status, text := d }] = 0 from rfl]
    omega
  | inError d => simpa [step, dispatch_error] using h
  | inAnswer d =>
    have hstep : (step (Op.inAnswer d) msgs).1 =
        removeLoading msgs ++ [{ type := MsgType.answer, text := d }] := by
      simp [step, dispatch_answer]
    rw [hstep, countLoading_append, countLoading_removeLoading,
      show countLoading [{ type := MsgType.answer, text := d }] = 0 from rfl]
    omega
  | inBinary url =>
    simp only [step]
    rw [binaryHandler]
    cases hfind : findIdxQ (fun m => decide (m.type = MsgType.answer)) msgs.reverse
    · exact h
    · rw [countLoading_setAudioAt]
      exact h

theorem countLoading_foldl : ∀ (ops : List Op) (msgs : List Msg),
    countLoading msgs ≤ 1 →
    countLoading (ops.foldl (fun msgs op => (step op msgs).1) msgs) ≤ 1
  | [], _, h => h
  | op :: ops, msgs, h => by
    rw [List.foldl_cons]
    exact countLoading_foldl ops _ (countLoading_step op msgs h)

/-! Claim theorems. -/

/-- C1, amended.  Of the inbound events, only `answer` removes the existing
`loading` entries before appending its entry; `status` appends a `status`
entry while leaving `loading` entries in place; and `error` has no
subscribed handler at all, so an inbound `error` event leaves the log
unchanged. -/
theorem inbound_event_log_updates (d : String) (msgs : List Msg) :
    dispatchEvent homeListeners "status" d msgs =
      msgs ++ [{ type := MsgType.status, text := d }] ∧
    dispatchEvent homeListeners "answer" d msgs =
      removeLoading msgs ++ [{ type := MsgType.answer, text := d }] ∧
    dispatchEvent homeListeners "error" d msgs = msgs :=
  ⟨dispatch_status d msgs, dispatch_answer d msgs, dispatch_error d msgs⟩

/-- C1 counterexample.  An inbound `status` event on a log holding a
`loading` entry keeps that `loading` entry (the claim says every `loading`
entry is removed), and an inbound `error` event appends nothing at all (the
claim says an `error` entry carrying the received text is appended). -/
theorem inbound_status_keeps_loading :
    dispatchEvent homeListeners "status" "hi"
        [{ type := MsgType.loading, text := "Thinking..." }] =
      [{ type := MsgType.loading, text := "Thinking..." },
       { type := MsgType.status, text := "hi" }] ∧
    dispatchEvent homeListeners "status" "hi"
        [{ type := MsgType.loading, text := "Thinking..." }] ≠
      removeLoading [{ type := MsgType.loading, text := "Thinking..." }] ++
        [{ type := MsgType.status, text := "hi" }] ∧
    dispatchEvent homeListeners "error" "boom"
        [{ type := MsgType.loading, text := "Thinking..." }] ≠
      removeLoading [{ type := MsgType.loading, text := "Thinking..." }] ++
        [{ type := MsgType.error, text := "boom" }] :=
  ⟨by decide, by decide, by decide⟩

/-- C2, amended.  A binary frame is attached to the most recent `answer`
entry of the log regardless of whether that entry already carries an
`audioRef` (an existing reference is overwritten); only when no `answer`
entry exists at all is the payload discarded and the log left unchanged. -/
theorem binary_attaches_to_last_answer (url : Nat) (msgs pre post : List Msg) (a : Msg) :
    ((∀ m ∈ msgs, m.type ≠ MsgType.answer) → binaryHandler url msgs = msgs) ∧
    (msgs = pre ++ a :: post → a.type = MsgType.answer →
      (∀ m ∈ post, m.type ≠ MsgType.answer) →
      binaryHandler url msgs = pre ++ setAudio a url :: post) := by
  constructor
  · exact fun h => binaryHandler_no_answer url h
  · intro h1 h2 h3
    rw [h1]
    exact binaryHandler_attach_last url pre a post h2 h3

/-- C2 counterexample.  With a log `[answer "a1" (no audioRef), answer "a2"
(audioRef 5)]` the claim requires the frame to attach to `a1`, the most
recent answer lacking an `audioRef`; the code instead attaches to `a2`,
overwriting its reference.  With a log whose only `answer` entry already
has an `audioRef`, the claim requires the log to be unchanged; the code
changes it. -/
theorem binary_overwrites_existing_audio :
    binaryHandler 9 [{ type := MsgType.answer, text := "a1" },
                     { type := MsgType.answer, text := "a2", audioUrl := some 5 }] =
      [{ type := MsgType.answer, text := "a1" },
       { type := MsgType.answer, text := "a2", audioUrl := some 9 }] ∧
    binaryHandler 9 [{ type := MsgType.answer, text := "a", audioUrl := some 5 }] =
      [{ type := MsgType.answer, text := "a", audioUrl := some 9 }] ∧
    binaryHandler 9 [{ type := MsgType.answer, text := "a", audioUrl := some 5 }] ≠
      [{ type := MsgType.answer, text := "a", audioUrl := some 5 }] :=
  ⟨by decide, by decide, by decide⟩

/-- C2 witness: the amended theorem applied at concrete logs — a log with no
`answer` entry is unchanged, and a log whose last `answer` entry already has
`audioRef 3` gets it overwritten with the new reference. -/
theorem binary_attaches_witness :
    binaryHandler 7 [{ type := MsgType.question, text := "q" }] =
      [{ type := MsgType.question, text := "q" }] ∧
    binaryHandler 7 [{ type := MsgType.question, text := "q" },
                     { type := MsgType.answer, text := "a", audioUrl := some 3 }] =
      [{ type := MsgType.question, text := "q" },
       { type := MsgType.answer, text := "a", audioUrl := some 7 }] := by
  constructor
  · exact (binary_attaches_to_last_answer 7 [{ type := MsgType.question, text := "q" }] [] []
      { type := MsgType.status, text := "" }).1 (by decide)
  · exact (binary_attaches_to_last_answer 7
      [{ type := MsgType.question, text := "q" },
       { type := MsgType.answer, text := "a", audioUrl := some 3 }]
      [{ type := MsgType.question, text := "q" }] []
      { type := MsgType.answer, text := "a", audioUrl := some 3 }).2 rfl rfl (by decide)

/-- C3, amended.  Every operation of the store either appends entries,
appends entries after filtering out the `loading` entries, or performs the
one permitted in-place mutation: setting (possibly overwriting) the
`audioUrl` of an `answer` entry. -/
theorem log_append_only_except_loading (op : Op) (msgs : List Msg) :
    appendOnlyStep msgs (step op msgs).1 := by
  cases op with
  | userQuestion input flag =>
    by_cases ht : jsTrim input = ""
    · left; exact ⟨[], by simp [step, ht]⟩
    · right; left
      exact ⟨[{ type := MsgType.question, text := jsTrim input },
              { type := MsgType.loading, text := "Thinking..." }], by simp [step, ht]⟩
  | fileUpload filename dataUrl =>
    by_cases hf : allowedFile filename = true
    · left
      exact ⟨[{ type := MsgType.upload, text := "Uploading " ++ filename ++ "..." }],
        by simp [step, hf]⟩
    · left
      exact ⟨[{ type := MsgType.error,
                text := "Only .txt, .pdf, and .docx files are supported." }],
        by simp [step, hf]⟩
  | urlSubmit u =>
    by_cases ht : jsTrim u = ""
    · left; exact ⟨[], by simp [step, ht]⟩
    · left
      exact ⟨[{ type := MsgType.website, text := "Indexing website: " ++ jsTrim u }],
        by simp [step, ht]⟩
  | inStatus d =>
    left; exact ⟨[{ type := MsgType.status, text := d }], by simp [step, dispatch_status]⟩
  | inError d => left; exact ⟨[], by simp [step, dispatch_error]⟩
  | inAnswer d =>
    right; left
    exact ⟨[{ type := MsgType.answer, text := d }], by simp [step, dispatch_answer]⟩
  | inBinary url => simpa [step] using binaryHandler_appendOnly url msgs

/-- C3 counterexample.  Dispatching an inbound `answer` on the log
`[loading]` yields `[answer]`: the `loading` entry has been removed, so the
new log is neither the old log plus appended entries nor the old log with
an `answer` entry's `audioRef` set — the strict append-only claim fails. -/
theorem answer_event_removes_loading_entry :
    (step (Op.inAnswer "ok") [{ type := MsgType.loading, text := "Thinking..." }]).1 =
      [{ type := MsgType.answer, text := "ok" }] ∧
    ¬ ((∃ app, (step (Op.inAnswer "ok")
            [{ type := MsgType.loading, text := "Thinking..." }]).1 =
          [{ type := MsgType.loading, text := "Thinking..." }] ++ app) ∨
       (∃ pre a post url,
          [{ type := MsgType.loading, text := "Thinking..." }] = pre ++ a :: post ∧
          a.type = MsgType.answer ∧
          (step (Op.inAnswer "ok") [{ type := MsgType.loading, text := "Thinking..." }]).1 =
            pre ++ setAudio a url :: post)) := by
  have hstep : (step (Op.inAnswer "ok")
      [{ type := MsgType.loading, text := "Thinking..." }]).1 =
      [{ type := MsgType.answer, text := "ok" }] := by decide
  refine ⟨hstep, ?_⟩
  rintro (⟨app, happ⟩ | ⟨pre, a, post, url, hdec, ha, hres⟩)
  · rw [hstep] at happ
    simp [Msg.mk.injEq] at happ
  · cases pre with
    | nil =>
      simp only [List.nil_append, List.cons.injEq] at hdec
      obtain ⟨h1, _⟩ := hdec
      rw [← h1] at ha
      exact absurd ha (by decide)
    | cons p pre' => simp_all

/-- C4.  `send` with a missing socket or with `readyState` different from
`OPEN` returns without writing anything to the transport; the model is a
total function with no queue, so nothing is raised and nothing is kept for
later delivery. -/
theorem send_not_open_no_write (sock : Option ReadyState) (event : String) (data : SendPayload)
    (h : sock ≠ some ReadyState.opened) : wsSend sock event data = none := by
  cases sock with
  | none => rfl
  | some st =>
    have hst : ¬ st = ReadyState.opened := fun he => h (by rw [he])
    simp [wsSend, hst]

/-- C4 witness: `send` on a closed socket writes no frame. -/
theorem send_not_open_no_write_witness :
    wsSend (some ReadyState.closed) "question" (SendPayload.json Json.null) = none :=
  send_not_open_no_write (some ReadyState.closed) "question" (SendPayload.json Json.null)
    (by decide)

/-- C6.  After any sequence of `subscribe`/`unsubscribe` calls on one event
name, a dispatch for that name invokes exactly the most recently subscribed
handler — `none` when the name was last unsubscribed or never subscribed
(the table, being a map from names to at most one handler, never holds two
handlers for a name). -/
theorem dispatch_uses_last_subscribed (ops : List (ListenerOp Nat)) (e : String) :
    dispatchedHandler (applyListenerOps e ops emptyListeners) e = lastSubscribed ops none :=
  applyListenerOps_lookup ops e emptyListeners

/-- C8.  `handleFileChange` checks the extension allow-list before any
network interaction: on mismatch it appends a local `error` entry and sends
nothing; on match it appends the `upload` entry and sends
`send("upload", \x7b file: base64, filename \x7d)`. -/
theorem file_upload_validates_extension (filename dataUrl : String) (msgs : List Msg) :
    (allowedFile filename = false →
      step (Op.fileUpload filename dataUrl) msgs =
        (msgs ++ [{ type := MsgType.error,
                    text := "Only .txt, .pdf, and .docx files are supported." }], none)) ∧
    (allowedFile filename = true →
      step (Op.fileUpload filename dataUrl) msgs =
        (msgs ++ [{ type := MsgType.upload, text := "Uploading " ++ filename ++ "..." }],
         some ("upload",
           Json.obj (JsonFields.cons "file" (Json.str (dataUrlBase64 dataUrl))
             (JsonFields.cons "filename" (Json.str filename) JsonFields.nil))))) := by
  constructor <;> intro h <;> simp [step, h]

/-- C8 witness: `diagram.png` is rejected locally with no send, while
`Report.PDF` (the allow-list is case-insensitive) is accepted, appending the
upload entry and sending the base64 payload stripped of its data-URL
prefix. -/
theorem file_upload_validates_extension_witness :
    allowedFile "diagram.png" = false ∧
    step (Op.fileUpload "diagram.png" "data:image/png;base64,AAA") [] =
      ([{ type := MsgType.error,
          text := "Only .txt, .pdf, and .docx files are supported." }], none) ∧
    allowedFile "Report.PDF" = true ∧
    step (Op.fileUpload "Report.PDF" "data:application/pdf;base64,QUJD") [] =
      ([{ type := MsgType.upload, text := "Uploading Report.PDF..." }],
       some ("upload",
         Json.obj (JsonFields.cons "file" (Json.str "QUJD")
           (JsonFields.cons "filename" (Json.str "Report.PDF") JsonFields.nil)))) :=
  ⟨by decide,
   (file_upload_validates_extension "diagram.png" "data:image/png;base64,AAA" []).1 (by decide),
   by decide,
   (file_upload_validates_extension "Report.PDF" "data:application/pdf;base64,QUJD" []).2
     (by decide)⟩

/-- C9.  In every log reachable from the empty log by store operations there
is at most one `loading` entry: `handleSend` filters the old `loading`
entries out in the same update that appends its new pair, and no other
operation appends a `loading` entry. -/
theorem reachable_log_at_most_one_loading (ops : List Op) :
    countLoading (reachLog ops) ≤ 1 :=
  countLoading_foldl ops [] (by decide)

/-- C10.  Submitting a question or a website URL whose text trims to the
empty string is a complete no-op: the log is unchanged and `send` is not
called. -/
theorem blank_input_is_no_op (input : String) (flag : Bool) (u : String) (msgs : List Msg) :
    (jsTrim input = "" → step (Op.userQuestion input flag) msgs = (msgs, none)) ∧
    (jsTrim u = "" → step (Op.urlSubmit u) msgs = (msgs, none)) := by
  constructor <;> intro h <;> simp [step, h]

/-- C10 witness: whitespace-only question and URL inputs leave the log
unchanged and send nothing. -/
theorem blank_input_is_no_op_witness :
    jsTrim " \t " = "" ∧
    step (Op.userQuestion " \t " false) [] = ([], none) ∧
    step (Op.urlSubmit "  ") [] = ([], none) :=
  ⟨by decide, (blank_input_is_no_op " \t " false "  " []).1 (by decide),
   (blank_input_is_no_op " \t " false "  " []).2 (by decide)⟩

end ChatClient
